import Mathlib

/-!
Verification development for the `dockerlayers` Dockerfile analyzer.

The Go package reads a Dockerfile, reassembles logical lines across
backslash continuations, strips comments, parses each logical line into a
keyword plus arguments, and folds the instruction stream into a report of
build stages and layers.  File-system access and the CLI flag layer are out
of scope; the embedding takes the Dockerfile's physical lines as a
`List String` and mirrors the rest of the package faithfully.

Conventions used by the embedding:
  - Go strings are Lean `String`s; character-level scans work on `String.data`
    (`List Char`) so that proofs can proceed by list induction.
  - The Go `map[string]int` alias table is modelled as an association list
    where insertion prepends and lookup takes the first match, which is
    observationally the same as Go map assignment (later insert wins).
  - Go's `stageIndex` starts at -1; the embedding uses `Option Nat` with
    `none` for the -1 sentinel.
  - `ensureStage`'s `for` loop is given explicit fuel (`index + 1`), which
    strictly bounds the number of appends the Go loop can perform.
-/

set_option maxRecDepth 4000

deriving instance DecidableEq for Except

namespace DockerLayers

/-! ## Effect labels (Go constants) -/

def effectStageStart : String := "stage start"
def effectFilesystem : String := "filesystem layer"
def effectMetadata : String := "metadata"
def effectBuildArg : String := "build arg"

/-! ## Character-level text helpers mirroring the Go `strings` calls -/

/-- Go `strings.TrimSpace` on a character list: drop whitespace on both ends. -/
def trimChars (l : List Char) : List Char :=
  ((l.dropWhile Char.isWhitespace).reverse.dropWhile Char.isWhitespace).reverse

/-- Go `strings.ToLower` (ASCII-relevant part) character by character. -/
def lowerStr (s : String) : String :=
  String.mk (s.data.map Char.toLower)

/-- Go `strings.ToUpper` (ASCII-relevant part) character by character. -/
def upperStr (s : String) : String :=
  String.mk (s.data.map Char.toUpper)

/-- Go `strings.EqualFold` restricted to ASCII folding, as used for the `AS` token. -/
def eqFold (a b : String) : Bool :=
  lowerStr a == lowerStr b

/-- Go `strings.Fields`: split on whitespace runs, dropping empty fields.
`acc` holds the characters of the current field in reverse order. -/
def fieldsAux (acc : List Char) : List Char → List String
  | [] => if acc.isEmpty then [] else [String.mk acc.reverse]
  | c :: cs =>
    if c.isWhitespace then
      if acc.isEmpty then fieldsAux [] cs
      else String.mk acc.reverse :: fieldsAux [] cs
    else fieldsAux (c :: acc) cs

def goFields (s : String) : List String :=
  fieldsAux [] s.data

/-- Go `strings.HasPrefix tok "--"`. -/
def startsWithDashDash (t : String) : Bool :=
  List.isPrefixOf ['-', '-'] t.data

/-- Does `pat` occur as a contiguous sublist, checked at every position. -/
def hasInfixAux (pat : List Char) : List Char → Bool
  | [] => pat.isEmpty
  | c :: cs => List.isPrefixOf pat (c :: cs) || hasInfixAux pat cs

/-- Go `strings.Contains s pat`. -/
def containsStr (s pat : String) : Bool :=
  hasInfixAux pat.data s.data

/-! ## Descriptor table (`instructionDescriptors` and `descriptorFor`) -/

structure descriptor where
  Effect : String
  Explanation : String
  CacheHint : String
deriving DecidableEq, Repr

def instructionDescriptors : String → Option descriptor
  | "FROM" => some
    { Effect := effectStageStart
      Explanation := "Starts a stage and pulls the referenced base image. Any cache from previous stages is discarded."
      CacheHint := "Invalidates when the base image digest or flags like --platform change." }
  | "RUN" => some
    { Effect := effectFilesystem
      Explanation := "Executes a shell command inside an intermediate container and commits the result as a new, immutable layer."
      CacheHint := "Cache key is the command text plus every file the command reads. Changing any of them busts the cache." }
  | "COPY" => some
    { Effect := effectFilesystem
      Explanation := "Copies files into the image and creates a new layer with their contents."
      CacheHint := "Any change in the source files or flags invalidates this layer's cache entry." }
  | "ADD" => some
    { Effect := effectFilesystem
      Explanation := "Behaves like COPY but also accepts remote URLs and auto-extracts tar archives, all of which produce new layers."
      CacheHint := "Cache depends on the archive/URL content as well as the instruction text." }
  | "CMD" => some
    { Effect := effectMetadata
      Explanation := "Sets the default command for containers created from the image. No filesystem changes occur."
      CacheHint := "Cache is tied to the instruction text only." }
  | "ENTRYPOINT" => some
    { Effect := effectMetadata
      Explanation := "Defines the executable that always runs when a container starts."
      CacheHint := "Cache is tied to the instruction text only." }
  | "ENV" => some
    { Effect := effectMetadata
      Explanation := "Persists environment variables into image metadata for future instructions and containers."
      CacheHint := "Any variable value change invalidates the cache for this step and later steps." }
  | "ARG" => some
    { Effect := effectBuildArg
      Explanation := "Defines build-time arguments. The value can influence cache keys but does not end up in the final image runtime environment."
      CacheHint := "Changing build args invalidates the layer that consumes them." }
  | "WORKDIR" => some
    { Effect := effectMetadata
      Explanation := "Sets the working directory for subsequent instructions, recorded as metadata."
      CacheHint := "Cache busts only when the path changes." }
  | "USER" => some
    { Effect := effectMetadata
      Explanation := "Configures the user/group used for following instructions and containers."
      CacheHint := "Cache busts when the user specification changes." }
  | "LABEL" => some
    { Effect := effectMetadata
      Explanation := "Adds metadata key/value pairs to the image manifest without touching the filesystem."
      CacheHint := "Cache invalidates when a label changes." }
  | "EXPOSE" => some
    { Effect := effectMetadata
      Explanation := "Documents which ports containers are expected to listen on. Pure metadata."
      CacheHint := "Cache invalidates when the exposed ports change." }
  | "VOLUME" => some
    { Effect := effectMetadata
      Explanation := "Declares mount points that become anonymous volumes at runtime."
      CacheHint := "Cache depends only on the instruction text." }
  | "HEALTHCHECK" => some
    { Effect := effectMetadata
      Explanation := "Stores a command for Docker to probe container health. No filesystem changes."
      CacheHint := "Cache invalidates when the command or interval flags change." }
  | "STOPSIGNAL" => some
    { Effect := effectMetadata
      Explanation := "Configures which signal Docker sends to stop the container."
      CacheHint := "Cache depends on the instruction text." }
  | "SHELL" => some
    { Effect := effectMetadata
      Explanation := "Overrides the default shell that RUN and similar instructions use."
      CacheHint := "Cache invalidates when the shell definition changes." }
  | "ONBUILD" => some
    { Effect := effectMetadata
      Explanation := "Registers a trigger that fires when the current image is used as a base in another Dockerfile."
      CacheHint := "Cache ties to the trigger content." }
  | "MAINTAINER" => some
    { Effect := effectMetadata
      Explanation := "Deprecated metadata about the author. Included here for completeness."
      CacheHint := "Cache invalidates when the value changes." }
  | _ => none

/-- Fallback descriptor for keywords absent from the table. -/
def fallbackDescriptor : descriptor :=
  { Effect := effectMetadata
    Explanation := "Recorded as metadata. It influences how containers start but does not add filesystem content."
    CacheHint := "Cache key ties to the literal instruction, so changing text invalidates the layer." }

def descriptorFor (keyword : String) : descriptor :=
  match instructionDescriptors keyword with
  | some desc => desc
  | none => fallbackDescriptor

/-! ## Data model -/

structure rawInstruction where
  line : Nat
  text : String
deriving DecidableEq, Repr

structure parsedInstruction where
  Line : Nat
  Keyword : String
  Args : String
  Raw : String
deriving DecidableEq, Repr

structure layerReport where
  Number : Nat
  Instruction : parsedInstruction
  Effect : String
  Explanation : String
  CacheHint : String
  Notes : List String
deriving DecidableEq, Repr

structure stageInfo where
  Index : Nat
  Name : String
  Base : String
deriving DecidableEq, Repr

structure stageReport where
  Stage : stageInfo
  Layers : List layerReport
  FsLayers : Nat
  MetadataLayers : Nat
  BuildArgs : Nat
deriving DecidableEq, Repr

structure report where
  Global : List layerReport
  Stages : List stageReport
deriving DecidableEq, Repr

/-! ## Line assembler (`readInstructions`, `stripContinuation`, `removeInlineComment`) -/

/-- Go `stripContinuation`: if the line ends in a backslash, remove it, trim
trailing space, and report that the logical line continues. -/
def stripContinuation (line : List Char) : List Char × Bool :=
  if line.getLast? = some '\\' then (trimChars line.dropLast, true)
  else (line, false)

/-- Scan for the first comment-starting hash: a while the scan runs,
`prevIsSpace` says whether the previous character was whitespace (true at the
start of the line, matching Go's `i == 0` disjunct).  Returns the prefix
before the cut when a comment start is found. -/
def inlineCutAux (prevIsSpace : Bool) : List Char → Option (List Char)
  | [] => none
  | c :: cs =>
    if c = '#' ∧ prevIsSpace then some []
    else (inlineCutAux c.isWhitespace cs).map (fun p => c :: p)

/-- Go `removeInlineComment`: cut at the first `#` that begins the line or
follows whitespace, then trim; otherwise return the line unchanged. -/
def removeInlineComment (line : List Char) : List Char :=
  match inlineCutAux true line with
  | some p => trimChars p
  | none => line

/-- Accumulator state of the line assembler: emitted instructions, the
in-progress logical line, and its first physical line number. -/
structure asmAcc where
  instrs : List rawInstruction
  current : List Char
  currentLine : Nat
deriving DecidableEq, Repr

/-- One iteration of the scanner loop in `readInstructions`. -/
def readStep (acc : asmAcc) (lineNo : Nat) (text : String) : asmAcc :=
  let trimmed := trimChars text.data
  if trimmed.isEmpty || trimmed.head? == some '#' then acc
  else
    let lwc := removeInlineComment trimmed
    if lwc.isEmpty then acc
    else
      let startLine := if acc.current.isEmpty then lineNo else acc.currentLine
      let cur0 := if acc.current.isEmpty then acc.current else acc.current ++ [' ']
      let sc := stripContinuation lwc
      let cur := cur0 ++ sc.1
      if sc.2 then { instrs := acc.instrs, current := cur, currentLine := startLine }
      else
        { instrs := acc.instrs ++ [{ line := startLine, text := String.mk cur }]
          current := []
          currentLine := startLine }

def readFold (n : Nat) (acc : asmAcc) : List String → asmAcc
  | [] => acc
  | l :: ls => readFold (n + 1) (readStep acc n l) ls

def assembleLines (lines : List String) : asmAcc :=
  readFold 1 { instrs := [], current := [], currentLine := 0 } lines

def readInstructions (lines : List String) : Except String (List rawInstruction) :=
  let final := assembleLines lines
  if final.current.isEmpty then .ok final.instrs
  else .error "unterminated line continuation at end of file"

/-! ## Instruction parser (`parseInstruction`) -/

def parseInstruction (raw : rawInstruction) : parsedInstruction :=
  let trimmed := trimChars raw.text.data
  if trimmed.isEmpty then { Line := 0, Keyword := "", Args := "", Raw := "" }
  else
    let keyword := trimmed.takeWhile (fun c => !c.isWhitespace)
    let restPart := trimmed.dropWhile (fun c => !c.isWhitespace)
    { Line := raw.line
      Keyword := upperStr (String.mk keyword)
      Args := String.mk (trimChars restPart)
      Raw := String.mk trimmed }

/-! ## FROM parsing and COPY source detection -/

def parseFrom (args : String) : String × String :=
  let tokens := goFields args
  match tokens.dropWhile startsWithDashDash with
  | [] => ("", "")
  | base :: rest =>
    match rest with
    | a :: x :: _ => if eqFold a "AS" then (base, x) else (base, "")
    | _ => (base, "")

def detectCopySourceStageAux : List String → String
  | [] => ""
  | t :: ts =>
    if List.isPrefixOf "--from=".data t.data then String.mk (t.data.drop 7)
    else if t = "--from" ∧ ts ≠ [] then ts.headD ""
    else detectCopySourceStageAux ts

def detectCopySourceStage (args : String) : String :=
  detectCopySourceStageAux (goFields args)

/-- The Go `map[string]int` alias table: prepend on insert, first match on
lookup, so a later insert for the same key wins, as with Go map assignment. -/
def mapInsert (m : List (String × Nat)) (k : String) (v : Nat) : List (String × Nat) :=
  (k, v) :: m

def mapFind? (m : List (String × Nat)) (k : String) : Option Nat :=
  (m.find? (fun e => e.1 == k)).map (fun e => e.2)

def copyNotes (args : String) (aliases : List (String × Nat)) : List String :=
  let source := detectCopySourceStage args
  if source = "" then
    ["Takes files from the build context, so editing those files will invalidate this layer."]
  else
    let lowered := lowerStr source
    match mapFind? aliases lowered with
    | some idx =>
      ["Copies from stage " ++ Nat.repr idx ++ " (" ++ source ++
        "). Cache depends on that stage's output instead of local files."]
    | none =>
      ["Copies from \"" ++ source ++ "\". Make sure the stage or image exists."]

/-! ## Stage/report builder (`analyzeDockerfile`, `ensureStage`, `buildLayer`) -/

def buildLayer (inst : parsedInstruction) (desc : descriptor) (extraNotes : List String) :
    layerReport :=
  { Number := 0
    Instruction := inst
    Effect := desc.Effect
    Explanation := desc.Explanation
    CacheHint := desc.CacheHint
    Notes := extraNotes }

/-- A stage as appended by `ensureStage`: zero-valued except for its index. -/
def freshStage (i : Nat) : stageReport :=
  { Stage := { Index := i, Name := "", Base := "" }
    Layers := []
    FsLayers := 0
    MetadataLayers := 0
    BuildArgs := 0 }

/-- The `for len(rep.Stages) <= index` loop of `ensureStage`, with fuel.
Each iteration appends a fresh stage indexed by the current length. -/
def padStagesAux : Nat → List stageReport → Nat → List stageReport
  | 0, stages, _ => stages
  | fuel + 1, stages, index =>
    if stages.length ≤ index then padStagesAux fuel (stages ++ [freshStage stages.length]) index
    else stages

/-- The padding effect of `ensureStage` on the stage list.  `index + 1` fuel
strictly bounds the loop's iteration count. -/
def padStages (stages : List stageReport) (index : Nat) : List stageReport :=
  padStagesAux (index + 1) stages index

/-- Mutation of `rep.Stages[index]` through the pointer `ensureStage` returns. -/
def modifyStage (stages : List stageReport) (idx : Nat) (f : stageReport → stageReport) :
    List stageReport :=
  match stages[idx]? with
  | some s => stages.set idx (f s)
  | none => stages

/-- Builder state threaded through the instruction loop of `analyzeDockerfile`:
the current stage index (`none` models Go's -1), the alias table, and the
report under construction. -/
structure buildState where
  stageIndex : Option Nat
  aliases : List (String × Nat)
  rep : report
deriving DecidableEq, Repr

def initState : buildState :=
  { stageIndex := none, aliases := [], rep := { Global := [], Stages := [] } }

def nextStageIndex : Option Nat → Nat
  | none => 0
  | some n => n + 1

/-- The `case "FROM"` branch of the instruction loop. -/
def processFrom (st : buildState) (inst : parsedInstruction) : Except String buildState :=
  let idx := nextStageIndex st.stageIndex
  let stages1 := padStages st.rep.Stages idx
  let pf := parseFrom inst.Args
  if pf.1 = "" then
    .error ("line " ++ Nat.repr inst.Line ++ ": FROM instruction missing base image")
  else
    let base := pf.1
    let aName := pf.2
    let aliases1 := if aName ≠ "" then mapInsert st.aliases (lowerStr aName) idx else st.aliases
    let aliases2 := mapInsert aliases1 (Nat.repr idx) idx
    let layer0 := buildLayer inst (descriptorFor inst.Keyword)
      ["Stage resets here and pulls \"" ++ base ++ "\"."]
    let layer1 :=
      if aName ≠ "" then
        { layer0 with Notes := layer0.Notes ++
          ["Alias \"" ++ aName ++ "\" lets you reference this stage via COPY --from=" ++
            aName ++ "."] }
      else layer0
    let stages2 := modifyStage stages1 idx (fun s =>
      let s1 := { s with Stage := { s.Stage with Base := base, Name := aName } }
      let layer2 := { layer1 with Number := s1.Layers.length + 1 }
      { s1 with Layers := s1.Layers ++ [layer2] })
    .ok { stageIndex := some idx, aliases := aliases2,
          rep := { st.rep with Stages := stages2 } }

/-- The `stageIndex == -1` branch: only ARG is legal before the first FROM. -/
def processBeforeFrom (st : buildState) (inst : parsedInstruction) :
    Except String buildState :=
  if inst.Keyword = "ARG" then
    let layer0 := buildLayer inst (descriptorFor inst.Keyword) []
    let layer1 :=
      { layer0 with
        Notes := layer0.Notes ++ ["This ARG applies globally and can be referenced in the first FROM."]
        Number := st.rep.Global.length + 1 }
    .ok { st with rep := { st.rep with Global := st.rep.Global ++ [layer1] } }
  else
    .error ("line " ++ Nat.repr inst.Line ++ ": Dockerfile must start with FROM (found " ++
      inst.Keyword ++ ")")

/-- The keyword-specific notes added inside a stage. -/
def stageNotes (inst : parsedInstruction) (aliases : List (String × Nat)) : List String :=
  if inst.Keyword = "COPY" then copyNotes inst.Args aliases
  else if inst.Keyword = "ADD" then
    (if containsStr inst.Args "http://" || containsStr inst.Args "https://" then
      ["Remote URLs are downloaded at build time; network changes can invalidate cache."]
    else []) ++
    (if containsStr inst.Args ".tar" then
      ["Tar archives are auto-extracted, which can surprise caching when archive contents change."]
    else [])
  else if inst.Keyword = "RUN" then
    ["Cleanup temp files within the same RUN to prevent them from sticking in the layer."]
  else if inst.Keyword = "ARG" then
    ["Only available during build; use ENV if the value is needed at runtime."]
  else []

/-- The effect-driven counter bumps (`switch layer.Effect`). -/
def bumpCounters (s : stageReport) (eff : String) : stageReport :=
  if eff = effectFilesystem then { s with FsLayers := s.FsLayers + 1 }
  else if eff = effectMetadata then { s with MetadataLayers := s.MetadataLayers + 1 }
  else if eff = effectBuildArg then { s with BuildArgs := s.BuildArgs + 1 }
  else s

/-- An ordinary instruction processed inside stage `sIdx` (this branch of the
Go loop has no error path). -/
def processInStage (st : buildState) (inst : parsedInstruction) (sIdx : Nat) : buildState :=
  let stages1 := padStages st.rep.Stages sIdx
  let layer0 := buildLayer inst (descriptorFor inst.Keyword) []
  let layer1 := { layer0 with Notes := layer0.Notes ++ stageNotes inst st.aliases }
  let stages2 := modifyStage stages1 sIdx (fun s =>
    let s1 := bumpCounters s layer1.Effect
    let layer2 := { layer1 with Number := s1.Layers.length + 1 }
    { s1 with Layers := s1.Layers ++ [layer2] })
  { st with rep := { st.rep with Stages := stages2 } }

/-- One iteration of the instruction loop in `analyzeDockerfile`. -/
def processInst (st : buildState) (inst : parsedInstruction) : Except String buildState :=
  if inst.Keyword = "" then .ok st
  else if inst.Keyword = "FROM" then processFrom st inst
  else
    match st.stageIndex with
    | none => processBeforeFrom st inst
    | some sIdx => .ok (processInStage st inst sIdx)

def runBuilder (insts : List parsedInstruction) : Except String buildState :=
  insts.foldlM processInst initState

/-- Go `analyzeDockerfile`, from the file's physical lines (path handling and
I/O are out of scope; the Go emptiness error embeds the path, elided here). -/
def analyzeDockerfile (lines : List String) : Except String report :=
  match readInstructions lines with
  | .error e => .error e
  | .ok raws =>
    if raws.isEmpty then .error "no Dockerfile instructions found"
    else
      let instructions := raws.map parseInstruction
      match runBuilder instructions with
      | .error e => .error e
      | .ok st => .ok st.rep

/-! ## Helper lemmas about padding and stage modification -/

lemma padStagesAux_of_lt (fuel : Nat) (l : List stageReport) (idx : Nat)
    (h : idx < l.length) : padStagesAux fuel l idx = l := by
  cases fuel with
  | zero => rfl
  | succ n => simp [padStagesAux, Nat.not_le.mpr h]

lemma padStages_of_lt {l : List stageReport} {idx : Nat} (h : idx < l.length) :
    padStages l idx = l :=
  padStagesAux_of_lt _ _ _ h

lemma padStages_eq_concat {l : List stageReport} {idx : Nat} (h : l.length = idx) :
    padStages l idx = l ++ [freshStage idx] := by
  unfold padStages padStagesAux
  rw [if_pos (Nat.le_of_eq h)]
  rw [h]
  exact padStagesAux_of_lt _ _ _ (by simp [← h])

lemma set_concat_length {α : Type} (l : List α) (a b : α) :
    (l ++ [a]).set l.length b = l ++ [b] := by
  induction l with
  | nil => rfl
  | cons x xs ih => simp [ih]

lemma modifyStage_concat (l : List stageReport) (s : stageReport)
    (f : stageReport → stageReport) :
    modifyStage (l ++ [s]) l.length f = l ++ [f s] := by
  unfold modifyStage
  rw [List.getElem?_concat_length]
  exact set_concat_length l s (f s)

lemma modifyStage_of_mem {l : List stageReport} {idx : Nat} {s : stageReport}
    (h : l[idx]? = some s) (f : stageReport → stageReport) :
    modifyStage l idx f = l.set idx (f s) := by
  unfold modifyStage
  rw [h]

/-! ## Facts about the descriptor table -/

lemma table_effect {k : String} {d : descriptor}
    (h2 : instructionDescriptors k = some d) (h : k ≠ "FROM") :
    d.Effect = effectFilesystem ∨ d.Effect = effectMetadata ∨ d.Effect = effectBuildArg := by
  unfold instructionDescriptors at h2
  split at h2 <;> first
    | exact absurd rfl h
    | (cases h2; simp [effectFilesystem, effectMetadata, effectBuildArg])
    | cases h2

lemma descriptorFor_effect_of_ne_from {k : String} (h : k ≠ "FROM") :
    (descriptorFor k).Effect = effectFilesystem ∨
    (descriptorFor k).Effect = effectMetadata ∨
    (descriptorFor k).Effect = effectBuildArg := by
  unfold descriptorFor
  cases h2 : instructionDescriptors k with
  | none => simp [fallbackDescriptor]
  | some d => exact table_effect h2 h

lemma effect_three_ne_stagestart {e : String}
    (h : e = effectFilesystem ∨ e = effectMetadata ∨ e = effectBuildArg) :
    e ≠ effectStageStart := by
  rcases h with h | h | h <;> subst h <;> decide

/-! ## Layer counting -/

def countEffect (ls : List layerReport) (e : String) : Nat :=
  ls.countP (fun l => l.Effect == e)

lemma countEffect_nil (e : String) : countEffect [] e = 0 := rfl

lemma countEffect_concat (ls : List layerReport) (x : layerReport) (e : String) :
    countEffect (ls ++ [x]) e = countEffect ls e + if x.Effect = e then 1 else 0 := by
  simp [countEffect, List.countP_append, List.countP_cons]

lemma countEffect_cons_of_ne (x : layerReport) (ls : List layerReport) {e : String}
    (h : x.Effect ≠ e) : countEffect (x :: ls) e = countEffect ls e := by
  simp [countEffect, List.countP_cons, h]

lemma countEffect_cons (x : layerReport) (ls : List layerReport) (e : String) :
    countEffect (x :: ls) e = countEffect ls e + if x.Effect = e then 1 else 0 := by
  simp [countEffect, List.countP_cons]

lemma count_three_of_mem (ls : List layerReport)
    (h : ∀ l ∈ ls, l.Effect = effectFilesystem ∨ l.Effect = effectMetadata ∨
      l.Effect = effectBuildArg) :
    countEffect ls effectFilesystem + countEffect ls effectMetadata +
      countEffect ls effectBuildArg = ls.length := by
  induction ls with
  | nil => rfl
  | cons x t ih =>
    have hx := h x (List.mem_cons_self x t)
    have ht := ih (fun l hl => h l (List.mem_cons_of_mem x hl))
    rw [countEffect_cons, countEffect_cons, countEffect_cons, List.length_cons]
    rcases hx with h1 | h1 | h1 <;> rw [h1]
    · rw [if_pos rfl, if_neg (by decide : ¬(effectFilesystem = effectMetadata)),
        if_neg (by decide : ¬(effectFilesystem = effectBuildArg))]
      omega
    · rw [if_pos rfl, if_neg (by decide : ¬(effectMetadata = effectFilesystem)),
        if_neg (by decide : ¬(effectMetadata = effectBuildArg))]
      omega
    · rw [if_pos rfl, if_neg (by decide : ¬(effectBuildArg = effectFilesystem)),
        if_neg (by decide : ¬(effectBuildArg = effectMetadata))]
      omega


/-! ## The builder invariant -/

/-- Well-formedness of one stage record: counters agree with the layer list,
and the layer list is a FROM layer followed by fs/metadata/build-arg layers. -/
def stageLayersOk (s : stageReport) : Prop :=
  s.FsLayers = countEffect s.Layers effectFilesystem ∧
  s.MetadataLayers = countEffect s.Layers effectMetadata ∧
  s.BuildArgs = countEffect s.Layers effectBuildArg ∧
  ∃ fl rest, s.Layers = fl :: rest ∧ fl.Number = 1 ∧ fl.Effect = effectStageStart ∧
    fl.Instruction.Keyword = "FROM" ∧
    ∀ l ∈ rest, l.Effect = effectFilesystem ∨ l.Effect = effectMetadata ∨
      l.Effect = effectBuildArg

/-- The alias-table entries contributed by one stage, in registration order
(textual alias first, then the stringified index). -/
def stageRegs (s : stageReport) : List (String × Nat) :=
  (if s.Stage.Name = "" then [] else [(lowerStr s.Stage.Name, s.Stage.Index)]) ++
  [(Nat.repr s.Stage.Index, s.Stage.Index)]

/-- All alias-table registrations, in chronological order. -/
def regsOf (stages : List stageReport) : List (String × Nat) :=
  (stages.map stageRegs).flatten

/-- The invariant maintained by the instruction loop.  The first component
says the stage list is exactly as long as the number of FROMs seen so far
(`nextStageIndex` sends Go's -1 sentinel to 0 and n to n+1). -/
def Inv (st : buildState) : Prop :=
  st.rep.Stages.length = nextStageIndex st.stageIndex ∧
  (∀ (i : Nat) (s : stageReport), st.rep.Stages[i]? = some s → s.Stage.Index = i) ∧
  (∀ s ∈ st.rep.Stages, stageLayersOk s) ∧
  (∀ l ∈ st.rep.Global, l.Effect = effectBuildArg ∧ l.Instruction.Keyword = "ARG") ∧
  st.aliases = (regsOf st.rep.Stages).reverse

lemma inv_init : Inv initState := by
  refine ⟨rfl, ?_, ?_, ?_, rfl⟩ <;> simp [initState]

lemma inv_length {st : buildState} (h : Inv st) :
    st.rep.Stages.length = nextStageIndex st.stageIndex := h.1

/-! ## Shape of each branch of the instruction loop -/

lemma processFrom_ok_shape {st : buildState} {inst : parsedInstruction} {st' : buildState}
    (hlen : st.rep.Stages.length = nextStageIndex st.stageIndex)
    (h : processFrom st inst = .ok st') :
    (parseFrom inst.Args).1 ≠ "" ∧
    ∃ layer2 : layerReport,
      layer2.Number = 1 ∧ layer2.Effect = (descriptorFor inst.Keyword).Effect ∧
      layer2.Instruction = inst ∧
      st' = { stageIndex := some (nextStageIndex st.stageIndex)
              aliases := mapInsert
                (if (parseFrom inst.Args).2 ≠ "" then
                  mapInsert st.aliases (lowerStr (parseFrom inst.Args).2)
                    (nextStageIndex st.stageIndex)
                 else st.aliases)
                (Nat.repr (nextStageIndex st.stageIndex)) (nextStageIndex st.stageIndex)
              rep := { Global := st.rep.Global
                       Stages := st.rep.Stages ++
                         [{ Stage := { Index := nextStageIndex st.stageIndex
                                       Name := (parseFrom inst.Args).2
                                       Base := (parseFrom inst.Args).1 }
                            Layers := [layer2]
                            FsLayers := 0
                            MetadataLayers := 0
                            BuildArgs := 0 }] } } := by
  simp only [processFrom] at h
  rw [padStages_eq_concat hlen, ← hlen, modifyStage_concat, hlen] at h
  split at h
  · exact absurd h (by simp)
  · next hbase =>
    refine ⟨hbase, ?_⟩
    cases h
    refine ⟨_, ?_, ?_, ?_, rfl⟩ <;>
      by_cases ha : (parseFrom inst.Args).2 = "" <;>
        simp [ha, freshStage, buildLayer]

lemma processBeforeFrom_ok_shape {st : buildState} {inst : parsedInstruction}
    {st' : buildState} (h : processBeforeFrom st inst = .ok st') :
    inst.Keyword = "ARG" ∧
    ∃ layer1 : layerReport,
      layer1.Effect = effectBuildArg ∧ layer1.Instruction = inst ∧
      layer1.Number = st.rep.Global.length + 1 ∧
      st' = { st with rep := { st.rep with Global := st.rep.Global ++ [layer1] } } := by
  unfold processBeforeFrom at h
  split at h
  · next hk =>
    refine ⟨hk, ?_⟩
    cases h
    exact ⟨_, by simp [buildLayer, hk, descriptorFor, instructionDescriptors], rfl, rfl, rfl⟩
  · exact absurd h (by simp)

lemma processBeforeFrom_err {st : buildState} {inst : parsedInstruction}
    (h : inst.Keyword ≠ "ARG") :
    processBeforeFrom st inst = .error ("line " ++ Nat.repr inst.Line ++
      ": Dockerfile must start with FROM (found " ++ inst.Keyword ++ ")") := by
  unfold processBeforeFrom
  rw [if_neg h]

/-- The stage update performed by the in-stage branch: bump the matching
counter, then append the layer with its 1-based number. -/
def appendStageLayer (s : stageReport) (inst : parsedInstruction)
    (aliases : List (String × Nat)) : stageReport :=
  let s1 := bumpCounters s (descriptorFor inst.Keyword).Effect
  { s1 with Layers := s1.Layers ++
      [{ Number := s1.Layers.length + 1
         Instruction := inst
         Effect := (descriptorFor inst.Keyword).Effect
         Explanation := (descriptorFor inst.Keyword).Explanation
         CacheHint := (descriptorFor inst.Keyword).CacheHint
         Notes := stageNotes inst aliases }] }

lemma processInStage_shape {st : buildState} {inst : parsedInstruction} {sIdx : Nat}
    {s : stageReport} (hlen : st.rep.Stages.length = sIdx + 1)
    (hs : st.rep.Stages[sIdx]? = some s) :
    processInStage st inst sIdx =
      { st with rep := { st.rep with
          Stages := st.rep.Stages.set sIdx (appendStageLayer s inst st.aliases) } } := by
  simp only [processInStage]
  rw [padStages_of_lt (by omega), modifyStage_of_mem hs]
  simp [buildLayer, appendStageLayer, bumpCounters]

/-! ## Invariant preservation -/

lemma getElem?_concat_cases {α : Type} {l : List α} {a : α} {i : Nat} {x : α}
    (h : (l ++ [a])[i]? = some x) : l[i]? = some x ∨ (i = l.length ∧ x = a) := by
  rcases Nat.lt_trichotomy i l.length with hlt | heq | hgt
  · left
    rw [List.getElem?_append, if_pos hlt] at h
    exact h
  · right
    subst heq
    rw [List.getElem?_concat_length] at h
    exact ⟨rfl, (Option.some.inj h).symm⟩
  · exfalso
    rw [List.getElem?_append, if_neg (by omega),
      List.getElem?_eq_none (by simp; omega)] at h
    cases h

lemma stageRegs_congr {s t : stageReport} (h : t.Stage = s.Stage) :
    stageRegs t = stageRegs s := by
  unfold stageRegs
  rw [h]

lemma regsOf_cons (x : stageReport) (xs : List stageReport) :
    regsOf (x :: xs) = stageRegs x ++ regsOf xs := by
  simp [regsOf]

lemma regsOf_concat (l : List stageReport) (s : stageReport) :
    regsOf (l ++ [s]) = regsOf l ++ stageRegs s := by
  simp [regsOf]

lemma regsOf_set_of_stage_eq {l : List stageReport} {i : Nat} {s t : stageReport}
    (hs : l[i]? = some s) (hstage : t.Stage = s.Stage) :
    regsOf (l.set i t) = regsOf l := by
  induction l generalizing i with
  | nil => simp at hs
  | cons x xs ih =>
    cases i with
    | zero =>
      simp only [List.getElem?_cons_zero] at hs
      cases hs
      rw [List.set_cons_zero, regsOf_cons, regsOf_cons, stageRegs_congr hstage]
    | succ n =>
      simp only [List.getElem?_cons_succ] at hs
      rw [List.set_cons_succ, regsOf_cons, regsOf_cons, ih hs]

lemma appendStageLayer_stage (s : stageReport) (inst : parsedInstruction)
    (aliases : List (String × Nat)) :
    (appendStageLayer s inst aliases).Stage = s.Stage := by
  unfold appendStageLayer bumpCounters
  split_ifs <;> rfl

/-- The layer record appended by the in-stage branch. -/
def newStageLayer (s : stageReport) (inst : parsedInstruction)
    (aliases : List (String × Nat)) : layerReport :=
  { Number := s.Layers.length + 1
    Instruction := inst
    Effect := (descriptorFor inst.Keyword).Effect
    Explanation := (descriptorFor inst.Keyword).Explanation
    CacheHint := (descriptorFor inst.Keyword).CacheHint
    Notes := stageNotes inst aliases }

lemma newStageLayer_effect (s : stageReport) (inst : parsedInstruction)
    (aliases : List (String × Nat)) :
    (newStageLayer s inst aliases).Effect = (descriptorFor inst.Keyword).Effect := rfl

lemma appendStageLayer_eq (s : stageReport) (inst : parsedInstruction)
    (aliases : List (String × Nat)) :
    appendStageLayer s inst aliases =
      { bumpCounters s (descriptorFor inst.Keyword).Effect with
        Layers := s.Layers ++ [newStageLayer s inst aliases] } := by
  unfold appendStageLayer newStageLayer bumpCounters
  split_ifs <;> rfl

lemma bump_fs (s : stageReport) :
    bumpCounters s effectFilesystem = { s with FsLayers := s.FsLayers + 1 } := by
  unfold bumpCounters
  rw [if_pos rfl]

lemma bump_md (s : stageReport) :
    bumpCounters s effectMetadata = { s with MetadataLayers := s.MetadataLayers + 1 } := by
  unfold bumpCounters
  rw [if_neg (by decide : ¬(effectMetadata = effectFilesystem)), if_pos rfl]

lemma bump_ba (s : stageReport) :
    bumpCounters s effectBuildArg = { s with BuildArgs := s.BuildArgs + 1 } := by
  unfold bumpCounters
  rw [if_neg (by decide : ¬(effectBuildArg = effectFilesystem)),
    if_neg (by decide : ¬(effectBuildArg = effectMetadata)), if_pos rfl]

lemma appendStageLayer_ok {s : stageReport} {inst : parsedInstruction}
    (aliases : List (String × Nat)) (hk : inst.Keyword ≠ "FROM")
    (hok : stageLayersOk s) : stageLayersOk (appendStageLayer s inst aliases) := by
  obtain ⟨hf, hm, hb, fl, rest, hL, hn1, hss, hkw, hrest⟩ := hok
  have hmemNew : ∀ l ∈ rest ++ [newStageLayer s inst aliases],
      l.Effect = (descriptorFor inst.Keyword).Effect ∨
      (l.Effect = effectFilesystem ∨ l.Effect = effectMetadata ∨
        l.Effect = effectBuildArg) := by
    intro l hl
    rcases List.mem_append.mp hl with hl | hl
    · exact Or.inr (hrest l hl)
    · simp only [List.mem_singleton] at hl
      subst hl
      exact Or.inl (newStageLayer_effect s inst aliases)
  have hshape : s.Layers ++ [newStageLayer s inst aliases] =
      fl :: (rest ++ [newStageLayer s inst aliases]) := by
    rw [hL]
    simp
  rcases descriptorFor_effect_of_ne_from hk with h1 | h1 | h1
  · rw [appendStageLayer_eq, h1, bump_fs]
    refine ⟨?_, ?_, ?_, fl, rest ++ [newStageLayer s inst aliases], hshape,
      hn1, hss, hkw, ?_⟩
    · simp only
      rw [countEffect_concat, newStageLayer_effect, h1, if_pos rfl, ← hf]
    · simp only
      rw [countEffect_concat, newStageLayer_effect, h1,
        if_neg (by decide : ¬(effectFilesystem = effectMetadata)), ← hm]
      omega
    · simp only
      rw [countEffect_concat, newStageLayer_effect, h1,
        if_neg (by decide : ¬(effectFilesystem = effectBuildArg)), ← hb]
      omega
    · intro l hl
      rcases hmemNew l hl with h2 | h2
      · rw [h1] at h2
        exact Or.inl h2
      · exact h2
  · rw [appendStageLayer_eq, h1, bump_md]
    refine ⟨?_, ?_, ?_, fl, rest ++ [newStageLayer s inst aliases], hshape,
      hn1, hss, hkw, ?_⟩
    · simp only
      rw [countEffect_concat, newStageLayer_effect, h1,
        if_neg (by decide : ¬(effectMetadata = effectFilesystem)), ← hf]
      omega
    · simp only
      rw [countEffect_concat, newStageLayer_effect, h1, if_pos rfl, ← hm]
    · simp only
      rw [countEffect_concat, newStageLayer_effect, h1,
        if_neg (by decide : ¬(effectMetadata = effectBuildArg)), ← hb]
      omega
    · intro l hl
      rcases hmemNew l hl with h2 | h2
      · rw [h1] at h2
        exact Or.inr (Or.inl h2)
      · exact h2
  · rw [appendStageLayer_eq, h1, bump_ba]
    refine ⟨?_, ?_, ?_, fl, rest ++ [newStageLayer s inst aliases], hshape,
      hn1, hss, hkw, ?_⟩
    · simp only
      rw [countEffect_concat, newStageLayer_effect, h1,
        if_neg (by decide : ¬(effectBuildArg = effectFilesystem)), ← hf]
      omega
    · simp only
      rw [countEffect_concat, newStageLayer_effect, h1,
        if_neg (by decide : ¬(effectBuildArg = effectMetadata)), ← hm]
      omega
    · simp only
      rw [countEffect_concat, newStageLayer_effect, h1, if_pos rfl, ← hb]
    · intro l hl
      rcases hmemNew l hl with h2 | h2
      · rw [h1] at h2
        exact Or.inr (Or.inr h2)
      · exact h2

lemma processInst_ok {st st' : buildState} {inst : parsedInstruction}
    (hInv : Inv st) (h : processInst st inst = .ok st') :
    Inv st' ∧ st'.rep.Stages.length =
      st.rep.Stages.length + (if inst.Keyword = "FROM" then 1 else 0) ∧
    (st'.rep.Global = st.rep.Global ∨ st.stageIndex = none) := by
  obtain ⟨h1, h2, h3, h4, h5⟩ := hInv
  unfold processInst at h
  by_cases hk0 : inst.Keyword = ""
  · rw [if_pos hk0] at h
    cases h
    refine ⟨⟨h1, h2, h3, h4, h5⟩, ?_, Or.inl rfl⟩
    rw [if_neg (by rw [hk0]; decide)]
    omega
  · rw [if_neg hk0] at h
    by_cases hkF : inst.Keyword = "FROM"
    · rw [if_pos hkF] at h
      obtain ⟨hbase, layer2, hnum, heff, hinstr, hst'⟩ :=
        processFrom_ok_shape (⟨h1, h2, h3, h4, h5⟩ : Inv st).1 h
      have heff2 : layer2.Effect = effectStageStart := by
        rw [heff, hkF]
        rfl
      subst hst'
      refine ⟨⟨?_, ?_, ?_, h4, ?_⟩, ?_, Or.inl rfl⟩
      · simp [nextStageIndex, h1]
      · intro i s hs
        rcases getElem?_concat_cases hs with hold | ⟨hi, hx⟩
        · exact h2 i s hold
        · subst hx
          rw [hi, h1]
      · intro s hs
        rcases List.mem_append.mp hs with hs | hs
        · exact h3 s hs
        · simp only [List.mem_singleton] at hs
          subst hs
          refine ⟨?_, ?_, ?_, layer2, [], rfl, hnum, heff2, ?_, by simp⟩
          · show (0 : Nat) = countEffect [layer2] effectFilesystem
            rw [countEffect_cons_of_ne layer2 [] (by rw [heff2]; decide), countEffect_nil]
          · show (0 : Nat) = countEffect [layer2] effectMetadata
            rw [countEffect_cons_of_ne layer2 [] (by rw [heff2]; decide), countEffect_nil]
          · show (0 : Nat) = countEffect [layer2] effectBuildArg
            rw [countEffect_cons_of_ne layer2 [] (by rw [heff2]; decide), countEffect_nil]
          · rw [hinstr]
            exact hkF
      · simp only
        rw [regsOf_concat, List.reverse_append, ← h5]
        unfold stageRegs mapInsert
        simp only
        by_cases ha : (parseFrom inst.Args).2 = "" <;> simp [ha, h1]
      · rw [if_pos hkF]
        simp
    · rw [if_neg hkF] at h
      cases hsi : st.stageIndex with
      | none =>
        rw [hsi] at h
        obtain ⟨hkA, layer1, hle, hli, hln, hst'⟩ := processBeforeFrom_ok_shape h
        subst hst'
        refine ⟨⟨h1, h2, h3, ?_, h5⟩, ?_, Or.inr rfl⟩
        · intro l hl
          rcases List.mem_append.mp hl with hl | hl
          · exact h4 l hl
          · simp only [List.mem_singleton] at hl
            subst hl
            exact ⟨hle, by rw [hli, hkA]⟩
        · rw [if_neg hkF]
          simp
      | some sIdx =>
        rw [hsi] at h
        cases h
        have hlen : st.rep.Stages.length = sIdx + 1 := by
          rw [h1, hsi]
          rfl
        have hs0 : st.rep.Stages[sIdx]? = some st.rep.Stages[sIdx] :=
          List.getElem?_eq_getElem (by omega)
        rw [processInStage_shape hlen hs0]
        refine ⟨⟨?_, ?_, ?_, h4, ?_⟩, ?_, Or.inl rfl⟩
        · simp only [List.length_set]
          exact h1
        · intro i s hs
          simp only [List.getElem?_set] at hs
          by_cases hij : sIdx = i
          · rw [if_pos hij, if_pos (by omega)] at hs
            cases hs
            rw [appendStageLayer_stage]
            rw [← hij]
            exact h2 sIdx _ hs0
          · rw [if_neg hij] at hs
            exact h2 i s hs
        · intro s hs
          rcases List.mem_or_eq_of_mem_set hs with hs | hs
          · exact h3 s hs
          · subst hs
            exact appendStageLayer_ok st.aliases hkF
              (h3 _ (List.getElem?_mem hs0))
        · simp only
          rw [regsOf_set_of_stage_eq hs0 (appendStageLayer_stage _ _ _), ← h5]
        · simp only [List.length_set]
          rw [if_neg hkF]
          omega

/-- Folding the instruction loop preserves the invariant and counts FROMs. -/
lemma foldlM_inv {insts : List parsedInstruction} {st st' : buildState}
    (hInv : Inv st) (h : List.foldlM processInst st insts = .ok st') :
    Inv st' ∧ st'.rep.Stages.length = st.rep.Stages.length +
      insts.countP (fun i => i.Keyword == "FROM") := by
  induction insts generalizing st with
  | nil =>
    cases h
    exact ⟨hInv, by simp⟩
  | cons i rest ih =>
    rw [List.foldlM_cons] at h
    cases hstep : processInst st i with
    | error e => rw [hstep] at h; cases h
    | ok st1 =>
      rw [hstep] at h
      obtain ⟨hInv1, hlen1, -⟩ := processInst_ok hInv hstep
      obtain ⟨hInv', hlen'⟩ := ih hInv1 h
      refine ⟨hInv', ?_⟩
      rw [hlen', hlen1, List.countP_cons]
      by_cases hkF : i.Keyword = "FROM"
      · simp only [hkF, if_pos rfl, beq_iff_eq, if_true]
        omega
      · simp only [hkF, beq_iff_eq, if_neg hkF, if_false]
        omega

lemma runBuilder_inv {insts : List parsedInstruction} {st : buildState}
    (h : runBuilder insts = .ok st) :
    Inv st ∧ st.rep.Stages.length = insts.countP (fun i => i.Keyword == "FROM") := by
  have := foldlM_inv inv_init h
  simpa [initState] using this

/-! ## From the pipeline to the builder -/

lemma analyze_ok {lines : List String} {rep : report}
    (h : analyzeDockerfile lines = .ok rep) :
    ∃ raws st, readInstructions lines = .ok raws ∧
      runBuilder (raws.map parseInstruction) = .ok st ∧ rep = st.rep := by
  cases hr : readInstructions lines with
  | error e =>
    simp only [analyzeDockerfile, hr] at h
    simp at h
  | ok raws =>
    simp only [analyzeDockerfile, hr] at h
    by_cases he : raws.isEmpty
    · rw [if_pos he] at h
      simp at h
    · rw [if_neg he] at h
      cases hb : runBuilder (raws.map parseInstruction) with
      | error e =>
        rw [hb] at h
        simp at h
      | ok st =>
        rw [hb] at h
        have h2 : st.rep = rep := by
          simpa using h
        exact ⟨raws, st, rfl, hb, h2.symm⟩

/-- A total wrapper around `analyzeDockerfile` used to name concrete reports
in witnesses; the fallback is never reached for the inputs used. -/
def reportOf (lines : List String) : report :=
  match analyzeDockerfile lines with
  | .ok r => r
  | .error _ => { Global := [], Stages := [] }

/-! ## C1: per-stage counter round-trip -/

/-- C1: for every stage of a successfully analyzed Dockerfile, `fsLayers`,
`metadataLayers` and `buildArgs` equal the number of layers whose effect is
filesystem, metadata and build arg respectively, and the layer list's length
is their sum plus one, the extra layer being the stage's own FROM layer with
effect stage start. -/
theorem stage_counts_roundtrip {lines : List String} {rep : report}
    (h : analyzeDockerfile lines = .ok rep) :
    ∀ s ∈ rep.Stages,
      s.FsLayers = countEffect s.Layers effectFilesystem ∧
      s.MetadataLayers = countEffect s.Layers effectMetadata ∧
      s.BuildArgs = countEffect s.Layers effectBuildArg ∧
      s.Layers.length = s.FsLayers + s.MetadataLayers + s.BuildArgs + 1 ∧
      ∃ fl rest, s.Layers = fl :: rest ∧ fl.Effect = effectStageStart ∧
        fl.Instruction.Keyword = "FROM" := by
  obtain ⟨raws, st, -, hb, hrep⟩ := analyze_ok h
  subst hrep
  intro s hs
  obtain ⟨⟨-, -, h3, -, -⟩, -⟩ := runBuilder_inv hb
  obtain ⟨hf, hm, hba, fl, rest, hL, hn1, hss, hkw, hrest⟩ := h3 s hs
  refine ⟨hf, hm, hba, ?_, fl, rest, hL, hss, hkw⟩
  have hsum := count_three_of_mem rest hrest
  rw [hL] at hf hm hba
  rw [countEffect_cons_of_ne fl rest (by rw [hss]; decide)] at hf
  rw [countEffect_cons_of_ne fl rest (by rw [hss]; decide)] at hm
  rw [countEffect_cons_of_ne fl rest (by rw [hss]; decide)] at hba
  rw [hL, List.length_cons, hf, hm, hba]
  omega

def c1Lines : List String :=
  ["FROM alpine:3.18 AS base", "RUN apk add curl", "COPY . /app", "WORKDIR /app", "ARG V=1"]

/-- Witness for C1 at a concrete five-instruction Dockerfile. -/
theorem stage_counts_roundtrip_witness :
    ∃ s, s ∈ (reportOf c1Lines).Stages ∧
      (s.FsLayers = countEffect s.Layers effectFilesystem ∧
       s.MetadataLayers = countEffect s.Layers effectMetadata ∧
       s.BuildArgs = countEffect s.Layers effectBuildArg ∧
       s.Layers.length = s.FsLayers + s.MetadataLayers + s.BuildArgs + 1 ∧
       ∃ fl rest, s.Layers = fl :: rest ∧ fl.Effect = effectStageStart ∧
         fl.Instruction.Keyword = "FROM") := by
  refine ⟨(reportOf c1Lines).Stages.headD (freshStage 0), by decide, ?_⟩
  exact @stage_counts_roundtrip c1Lines (reportOf c1Lines) (by decide) _ (by decide)

/-! ## C2: stage count and contiguous indices -/

/-- C2: a successful analysis has exactly as many stages as the instruction
stream has FROM instructions, and the stage at position i carries index i. -/
theorem stage_count_and_indices {lines : List String} {rep : report}
    (h : analyzeDockerfile lines = .ok rep) :
    (∀ raws, readInstructions lines = .ok raws →
      rep.Stages.length =
        (raws.map parseInstruction).countP (fun i => i.Keyword == "FROM")) ∧
    (∀ (i : Nat) (s : stageReport), rep.Stages[i]? = some s → s.Stage.Index = i) := by
  obtain ⟨raws0, st, hr, hb, hrep⟩ := analyze_ok h
  subst hrep
  obtain ⟨⟨-, h2, -, -, -⟩, hcount⟩ := runBuilder_inv hb
  refine ⟨?_, h2⟩
  intro raws hraws
  rw [hr] at hraws
  cases hraws
  exact hcount

def c2Lines : List String :=
  ["FROM golang:1.22 AS build", "RUN go build", "FROM scratch", "COPY --from=build /a /a"]

/-- Witness for C2 at a concrete two-stage Dockerfile. -/
theorem stage_count_and_indices_witness :
    (reportOf c2Lines).Stages.length =
      (((readInstructions c2Lines).toOption.getD []).map parseInstruction).countP
        (fun i => i.Keyword == "FROM") ∧
    ((reportOf c2Lines).Stages.headD (freshStage 0)).Stage.Index = 0 ∧
    ((reportOf c2Lines).Stages.getD 1 (freshStage 0)).Stage.Index = 1 := by
  refine ⟨(@stage_count_and_indices c2Lines (reportOf c2Lines) (by decide)).1 _ (by decide),
    ?_, ?_⟩
  · exact (@stage_count_and_indices c2Lines (reportOf c2Lines) (by decide)).2 0 _ (by decide)
  · exact (@stage_count_and_indices c2Lines (reportOf c2Lines) (by decide)).2 1 _ (by decide)

/-! ## C10: exactly one stage-start layer, leading each stage -/

/-- C10: in every successful report, each stage's layer list starts with a
layer numbered 1 whose effect is stage start and whose keyword is FROM, no
later layer of the stage has effect stage start, and no global layer has
effect stage start. -/
theorem stage_start_structure {lines : List String} {rep : report}
    (h : analyzeDockerfile lines = .ok rep) :
    (∀ s ∈ rep.Stages, ∃ fl rest, s.Layers = fl :: rest ∧ fl.Number = 1 ∧
      fl.Effect = effectStageStart ∧ fl.Instruction.Keyword = "FROM" ∧
      ∀ l ∈ rest, l.Effect ≠ effectStageStart) ∧
    (∀ l ∈ rep.Global, l.Effect ≠ effectStageStart) := by
  obtain ⟨raws, st, -, hb, hrep⟩ := analyze_ok h
  subst hrep
  obtain ⟨⟨-, -, h3, h4, -⟩, -⟩ := runBuilder_inv hb
  constructor
  · intro s hs
    obtain ⟨-, -, -, fl, rest, hL, hn1, hss, hkw, hrest⟩ := h3 s hs
    exact ⟨fl, rest, hL, hn1, hss, hkw,
      fun l hl => effect_three_ne_stagestart (hrest l hl)⟩
  · intro l hl
    rw [(h4 l hl).1]
    decide

def c10Lines : List String :=
  ["ARG V=1", "FROM alpine", "RUN a", "ENV b=c"]

/-- Witness for C10 at a concrete Dockerfile with a global ARG. -/
theorem stage_start_structure_witness :
    (∃ fl rest,
      ((reportOf c10Lines).Stages.headD (freshStage 0)).Layers = fl :: rest ∧
      fl.Number = 1 ∧ fl.Effect = effectStageStart ∧
      fl.Instruction.Keyword = "FROM" ∧
      ∀ l ∈ rest, l.Effect ≠ effectStageStart) ∧
    ((reportOf c10Lines).Global.headD
      { Number := 0, Instruction := { Line := 0, Keyword := "", Args := "", Raw := "" }
        Effect := "", Explanation := "", CacheHint := "", Notes := [] }).Effect ≠
      effectStageStart := by
  constructor
  · exact (@stage_start_structure c10Lines (reportOf c10Lines) (by decide)).1 _ (by decide)
  · exact (@stage_start_structure c10Lines (reportOf c10Lines) (by decide)).2 _ (by decide)

/-! ## C4: ARGs before the first FROM -/

lemma except_bind_ok {ε α β : Type} (x : α) (f : α → Except ε β) :
    (Except.ok x >>= f : Except ε β) = f x := rfl

lemma except_bind_err {ε α β : Type} (e : ε) (f : α → Except ε β) :
    ((Except.error e : Except ε α) >>= f : Except ε β) = .error e := rfl

/-- The layer appended to `Report.Global` for a pre-FROM ARG instruction. -/
def globalArgLayer (inst : parsedInstruction) (num : Nat) : layerReport :=
  { Number := num
    Instruction := inst
    Effect := effectBuildArg
    Explanation := "Defines build-time arguments. The value can influence cache keys but does not end up in the final image runtime environment."
    CacheHint := "Changing build args invalidates the layer that consumes them."
    Notes := ["This ARG applies globally and can be referenced in the first FROM."] }

/-- Global layers built from a run of pre-FROM ARG instructions, numbered
consecutively starting after `n`. -/
def mkGlobals : List parsedInstruction → Nat → List layerReport
  | [], _ => []
  | i :: is, n => globalArgLayer i (n + 1) :: mkGlobals is (n + 1)

/-- The state after folding only pre-FROM ARG and blank instructions. -/
def preFromState (pre : List parsedInstruction) : buildState :=
  { stageIndex := none, aliases := [],
    rep := { Global := mkGlobals (pre.filter (fun i => i.Keyword == "ARG")) 0,
             Stages := [] } }

lemma mkGlobals_map (is : List parsedInstruction) (n : Nat) :
    (mkGlobals is n).map (fun l => l.Instruction) = is := by
  induction is generalizing n with
  | nil => rfl
  | cons i t ih => simp [mkGlobals, globalArgLayer, ih]

lemma mkGlobals_effect {is : List parsedInstruction} {n : Nat} :
    ∀ l ∈ mkGlobals is n, l.Effect = effectBuildArg := by
  induction is generalizing n with
  | nil => simp [mkGlobals]
  | cons i t ih =>
    intro l hl
    rcases List.mem_cons.mp hl with hl | hl
    · subst hl
      rfl
    · exact ih l hl

lemma processBeforeFrom_arg_eq {st : buildState} {inst : parsedInstruction}
    (hk : inst.Keyword = "ARG") :
    processBeforeFrom st inst = .ok { st with rep := { st.rep with
      Global := st.rep.Global ++ [globalArgLayer inst (st.rep.Global.length + 1)] } } := by
  unfold processBeforeFrom
  rw [if_pos hk, hk]
  rfl

lemma processInst_arg_none {st : buildState} {inst : parsedInstruction}
    (hsi : st.stageIndex = none) (hk : inst.Keyword = "ARG") :
    processInst st inst = .ok { st with rep := { st.rep with
      Global := st.rep.Global ++ [globalArgLayer inst (st.rep.Global.length + 1)] } } := by
  unfold processInst
  rw [if_neg (by rw [hk]; decide), if_neg (by rw [hk]; decide), hsi]
  show processBeforeFrom st inst =
    .ok { stageIndex := none, aliases := st.aliases,
          rep := { Global := st.rep.Global ++ [globalArgLayer inst (st.rep.Global.length + 1)], Stages := st.rep.Stages } }
  rw [processBeforeFrom_arg_eq hk, hsi]

lemma processInst_blank {st : buildState} {inst : parsedInstruction}
    (hk : inst.Keyword = "") : processInst st inst = .ok st := by
  unfold processInst
  rw [if_pos hk]

/-- Folding a run of pre-FROM ARG and blank instructions only appends the
corresponding global layers. -/
lemma fold_pre_args (pre : List parsedInstruction) :
    ∀ G : List layerReport, (∀ i ∈ pre, i.Keyword = "ARG" ∨ i.Keyword = "") →
    List.foldlM processInst
      { stageIndex := none, aliases := [], rep := { Global := G, Stages := [] } } pre =
    .ok { stageIndex := none, aliases := [],
          rep :=
            { Global := G ++ mkGlobals (pre.filter (fun i => i.Keyword == "ARG")) G.length,
              Stages := [] } } := by
  induction pre with
  | nil =>
    intro G hgood
    simp only [List.foldlM_nil, List.filter_nil, mkGlobals, List.append_nil]
    rfl
  | cons i is ih =>
    intro G hgood
    have hrest : ∀ j ∈ is, j.Keyword = "ARG" ∨ j.Keyword = "" :=
      fun j hj => hgood j (List.mem_cons_of_mem i hj)
    rw [List.foldlM_cons]
    rcases hgood i (List.mem_cons_self i is) with hk | hk
    · rw [processInst_arg_none rfl hk, except_bind_ok]
      rw [ih (G ++ [globalArgLayer i (G.length + 1)]) hrest]
      simp [hk, mkGlobals, List.filter_cons]
    · rw [processInst_blank hk, except_bind_ok, ih G hrest]
      simp [hk, List.filter_cons]

lemma fold_init_args (pre : List parsedInstruction)
    (hgood : ∀ i ∈ pre, i.Keyword = "ARG" ∨ i.Keyword = "") :
    List.foldlM processInst initState pre = .ok (preFromState pre) :=
  fold_pre_args pre [] hgood

/-- If folding a FROM-free prefix from the initial state succeeds, every
instruction in it was an ARG or blank. -/
lemma fold_pre_ok {pre : List parsedInstruction}
    (hnoFrom : ∀ i ∈ pre, i.Keyword ≠ "FROM") :
    ∀ (G : List layerReport) (out : buildState),
    List.foldlM processInst
      { stageIndex := none, aliases := [], rep := { Global := G, Stages := [] } } pre =
        .ok out →
    ∀ i ∈ pre, i.Keyword = "ARG" ∨ i.Keyword = "" := by
  induction pre with
  | nil => simp
  | cons i is ih =>
    intro G out h
    rw [List.foldlM_cons] at h
    have hi : i.Keyword = "ARG" ∨ i.Keyword = "" := by
      by_contra hbad
      push_neg at hbad
      have herr : processInst
          { stageIndex := none, aliases := [],
            rep := { Global := G, Stages := [] } } i = .error ("line " ++
              Nat.repr i.Line ++ ": Dockerfile must start with FROM (found " ++
              i.Keyword ++ ")") := by
        unfold processInst
        rw [if_neg hbad.2, if_neg (hnoFrom i (List.mem_cons_self i is))]
        show processBeforeFrom _ i = _
        exact processBeforeFrom_err hbad.1
      rw [herr, except_bind_err] at h
      cases h
    have hnoFrom' : ∀ j ∈ is, j.Keyword ≠ "FROM" :=
      fun j hj => hnoFrom j (List.mem_cons_of_mem i hj)
    intro j hj
    rcases List.mem_cons.mp hj with hj | hj
    · subst hj
      exact hi
    · rcases hi with hk | hk
      · rw [processInst_arg_none rfl hk, except_bind_ok] at h
        exact ih hnoFrom' _ _ h j hj
      · rw [processInst_blank hk, except_bind_ok] at h
        exact ih hnoFrom' _ _ h j hj

lemma fold_init_ok {pre : List parsedInstruction} {out : buildState}
    (hnoFrom : ∀ i ∈ pre, i.Keyword ≠ "FROM")
    (h : List.foldlM processInst initState pre = .ok out) :
    ∀ i ∈ pre, i.Keyword = "ARG" ∨ i.Keyword = "" :=
  fold_pre_ok hnoFrom [] out h

lemma processFrom_stable {st st' : buildState} {inst : parsedInstruction}
    (h : processFrom st inst = .ok st') :
    st'.rep.Global = st.rep.Global ∧ ∃ m, st'.stageIndex = some m := by
  simp only [processFrom] at h
  split at h
  · cases h
  · cases h
    exact ⟨rfl, _, rfl⟩

lemma processInst_some_stable {st st' : buildState} {inst : parsedInstruction} {n : Nat}
    (hsi : st.stageIndex = some n) (h : processInst st inst = .ok st') :
    st'.rep.Global = st.rep.Global ∧ ∃ m, st'.stageIndex = some m := by
  unfold processInst at h
  by_cases hk0 : inst.Keyword = ""
  · rw [if_pos hk0] at h
    cases h
    exact ⟨rfl, n, hsi⟩
  · rw [if_neg hk0] at h
    by_cases hkF : inst.Keyword = "FROM"
    · rw [if_pos hkF] at h
      exact processFrom_stable h
    · rw [if_neg hkF, hsi] at h
      cases h
      exact ⟨rfl, n, hsi⟩

lemma fold_some_stable {insts : List parsedInstruction} {st st' : buildState}
    (hsi : ∃ n, st.stageIndex = some n)
    (h : List.foldlM processInst st insts = .ok st') :
    st'.rep.Global = st.rep.Global := by
  induction insts generalizing st with
  | nil =>
    cases h
    rfl
  | cons i is ih =>
    rw [List.foldlM_cons] at h
    cases hstep : processInst st i with
    | error e =>
      rw [hstep, except_bind_err] at h
      cases h
    | ok st1 =>
      rw [hstep, except_bind_ok] at h
      obtain ⟨n, hsi⟩ := hsi
      obtain ⟨hG, hm⟩ := processInst_some_stable hsi hstep
      rw [ih hm h, hG]

lemma dropWhile_head_false {α : Type} {p : α → Bool} {l : List α} {x : α} {xs : List α}
    (h : l.dropWhile p = x :: xs) : p x = false := by
  induction l with
  | nil => cases h
  | cons a t ih =>
    rw [List.dropWhile_cons] at h
    split at h
    · exact ih h
    · next hp =>
      cases h
      simpa using hp

/-- C4: ARG instructions strictly before the first FROM land in
`report.global` in order, each tagged build arg; any other non-blank keyword
before the first FROM aborts the analysis with the line-tagged
"Dockerfile must start with FROM" error. -/
theorem global_args_before_from (insts : List parsedInstruction) :
    (∀ st, runBuilder insts = .ok st →
      st.rep.Global.map (fun l => l.Instruction) =
        (insts.takeWhile (fun i => !(i.Keyword == "FROM"))).filter
          (fun i => i.Keyword == "ARG") ∧
      ∀ l ∈ st.rep.Global, l.Effect = effectBuildArg) ∧
    (∀ pre bad rest, insts = pre ++ bad :: rest →
      (∀ i ∈ pre, i.Keyword = "ARG" ∨ i.Keyword = "") →
      bad.Keyword ≠ "ARG" → bad.Keyword ≠ "FROM" → bad.Keyword ≠ "" →
      runBuilder insts = .error ("line " ++ Nat.repr bad.Line ++
        ": Dockerfile must start with FROM (found " ++ bad.Keyword ++ ")")) := by
  constructor
  · intro st h
    unfold runBuilder at h
    rw [← List.takeWhile_append_dropWhile (fun i => !(i.Keyword == "FROM")) insts,
      List.foldlM_append] at h
    cases hmid : List.foldlM processInst initState
        (insts.takeWhile (fun i => !(i.Keyword == "FROM"))) with
    | error e =>
      rw [hmid, except_bind_err] at h
      cases h
    | ok mid =>
      rw [hmid, except_bind_ok] at h
      have hnoFrom : ∀ i ∈ insts.takeWhile (fun i => !(i.Keyword == "FROM")),
          i.Keyword ≠ "FROM" := by
        intro i hi
        have := List.mem_takeWhile_imp hi
        simpa using this
      have hgood := fold_init_ok hnoFrom hmid
      have hmid2 := fold_init_args
        (insts.takeWhile (fun i => !(i.Keyword == "FROM"))) hgood
      rw [hmid2] at hmid
      have hmidEq : mid = preFromState
          (insts.takeWhile (fun i => !(i.Keyword == "FROM"))) := by
        cases hmid
        rfl
      subst hmidEq
      have hGmid : (preFromState
          (insts.takeWhile (fun i => !(i.Keyword == "FROM")))).rep.Global =
        mkGlobals ((insts.takeWhile (fun i => !(i.Keyword == "FROM"))).filter
          (fun i => i.Keyword == "ARG")) 0 := rfl
      cases hd : insts.dropWhile (fun i => !(i.Keyword == "FROM")) with
      | nil =>
        rw [hd] at h
        cases h
        rw [hGmid]
        constructor
        · exact mkGlobals_map _ _
        · exact fun l hl => mkGlobals_effect l hl
      | cons f fs =>
        rw [hd, List.foldlM_cons] at h
        have hf : f.Keyword = "FROM" := by
          have := dropWhile_head_false hd
          simpa using this
        cases hstep : processInst (preFromState
            (insts.takeWhile (fun i => !(i.Keyword == "FROM")))) f with
        | error e =>
          rw [hstep, except_bind_err] at h
          cases h
        | ok st1 =>
          rw [hstep, except_bind_ok] at h
          have hpf : processFrom (preFromState
              (insts.takeWhile (fun i => !(i.Keyword == "FROM")))) f = .ok st1 := by
            rw [← hstep]
            unfold processInst
            rw [if_neg (by rw [hf]; decide), if_pos hf]
          obtain ⟨hG1, hm⟩ := processFrom_stable hpf
          have hGfin := fold_some_stable hm h
          rw [hGfin, hG1, hGmid]
          constructor
          · exact mkGlobals_map _ _
          · exact fun l hl => mkGlobals_effect l hl
  · intro pre bad rest hsplit hgood hA hF hE
    unfold runBuilder
    rw [hsplit, List.foldlM_append]
    rw [fold_init_args pre hgood, except_bind_ok, List.foldlM_cons]
    have hbadstep : processInst (preFromState pre) bad =
        .error ("line " ++ Nat.repr bad.Line ++
          ": Dockerfile must start with FROM (found " ++ bad.Keyword ++ ")") := by
      unfold processInst
      rw [if_neg hE, if_neg hF]
      show processBeforeFrom _ bad = _
      exact processBeforeFrom_err hA
    rw [hbadstep, except_bind_err]

def c4OkInsts : List parsedInstruction :=
  [{ Line := 1, Keyword := "ARG", Args := "V=1", Raw := "ARG V=1" },
   { Line := 2, Keyword := "FROM", Args := "alpine", Raw := "FROM alpine" },
   { Line := 3, Keyword := "ARG", Args := "W=2", Raw := "ARG W=2" }]

def c4BadInsts : List parsedInstruction :=
  [{ Line := 1, Keyword := "ARG", Args := "V=1", Raw := "ARG V=1" },
   { Line := 2, Keyword := "RUN", Args := "x", Raw := "RUN x" }]

/-- Witness for C4: the global list of a concrete stream equals its pre-FROM
ARGs, and a RUN before the first FROM fails with the expected error. -/
theorem global_args_before_from_witness :
    (((runBuilder c4OkInsts).toOption.getD initState).rep.Global.map
        (fun l => l.Instruction) =
      (c4OkInsts.takeWhile (fun i => !(i.Keyword == "FROM"))).filter
        (fun i => i.Keyword == "ARG") ∧
      ∀ l ∈ ((runBuilder c4OkInsts).toOption.getD initState).rep.Global,
        l.Effect = effectBuildArg) ∧
    runBuilder c4BadInsts = .error
      "line 2: Dockerfile must start with FROM (found RUN)" := by
  constructor
  · exact (global_args_before_from c4OkInsts).1 _ (by decide)
  · have := (global_args_before_from c4BadInsts).2
      [{ Line := 1, Keyword := "ARG", Args := "V=1", Raw := "ARG V=1" }]
      { Line := 2, Keyword := "RUN", Args := "x", Raw := "RUN x" } []
      rfl (by decide) (by decide) (by decide) (by decide)
    simpa using this

/-! ## C3: alias-table lookup is last-wins, not write-once -/

def c3insts : List parsedInstruction :=
  [{ Line := 1, Keyword := "FROM", Args := "a AS x", Raw := "FROM a AS x" },
   { Line := 2, Keyword := "FROM", Args := "b AS x", Raw := "FROM b AS x" }]

/-- C3 counterexample: two stages declare the alias `x`; stage 0 declared it
first, yet the final alias table resolves `x` to stage 1, so the earlier
stage's entry was overwritten. -/
theorem alias_write_once_false :
    ∃ st, runBuilder c3insts = .ok st ∧
      (0, "x") ∈ st.rep.Stages.map (fun s => (s.Stage.Index, s.Stage.Name)) ∧
      mapFind? st.aliases (lowerStr "x") = some 1 ∧
      mapFind? st.aliases (lowerStr "x") ≠ some 0 := by
  refine ⟨(runBuilder c3insts).toOption.getD initState, by decide, by decide,
    by decide, by decide⟩

lemma regsOf_append (l₁ l₂ : List stageReport) :
    regsOf (l₁ ++ l₂) = regsOf l₁ ++ regsOf l₂ := by
  simp [regsOf]

lemma regsOf_mem {x : String × Nat} {l : List stageReport} (hx : x ∈ regsOf l) :
    ∃ t ∈ l, (x.1 = lowerStr t.Stage.Name ∨ x.1 = Nat.repr t.Stage.Index) ∧
      x.2 = t.Stage.Index := by
  induction l with
  | nil => simp [regsOf] at hx
  | cons a t ih =>
    rw [regsOf_cons] at hx
    rcases List.mem_append.mp hx with hx | hx
    · refine ⟨a, List.mem_cons_self a t, ?_⟩
      unfold stageRegs at hx
      by_cases hn : a.Stage.Name = ""
      · rw [if_pos hn] at hx
        simp only [List.nil_append, List.mem_singleton] at hx
        subst hx
        exact ⟨Or.inr rfl, rfl⟩
      · rw [if_neg hn] at hx
        simp only [List.cons_append, List.nil_append, List.mem_cons] at hx
        rcases hx with hx | hx | hx
        · subst hx
          exact ⟨Or.inl rfl, rfl⟩
        · subst hx
          exact ⟨Or.inr rfl, rfl⟩
        · simp at hx
    · obtain ⟨u, hu, hk⟩ := ih hx
      exact ⟨u, List.mem_cons_of_mem a hu, hk⟩

/-- C3 amended: alias lookup is last-wins.  A stage's declared alias (or a
later stage's stringified index) can shadow an earlier stage's alias entry;
looking up a stage's lowercased alias yields that stage's index exactly when
no later stage registers the same key. -/
theorem alias_lookup_last_wins {insts : List parsedInstruction} {st : buildState}
    (h : runBuilder insts = .ok st) :
    ∀ s ∈ st.rep.Stages, s.Stage.Name ≠ "" →
      (∀ t ∈ st.rep.Stages, s.Stage.Index < t.Stage.Index →
        lowerStr t.Stage.Name ≠ lowerStr s.Stage.Name ∧
        Nat.repr t.Stage.Index ≠ lowerStr s.Stage.Name) →
      mapFind? st.aliases (lowerStr s.Stage.Name) = some s.Stage.Index := by
  obtain ⟨⟨-, h2, -, -, h5⟩, -⟩ := runBuilder_inv h
  intro s hs hname hshadow
  obtain ⟨pre, post, hsplit⟩ := List.append_of_mem hs
  have hsIdx : s.Stage.Index = pre.length := by
    apply h2
    rw [hsplit, List.getElem?_append, if_neg (by omega)]
    simp
  have hpost : ∀ t ∈ post, s.Stage.Index < t.Stage.Index := by
    intro t ht
    obtain ⟨j, hjlt, hjt⟩ := List.getElem_of_mem ht
    have hget : (pre ++ s :: post)[pre.length + 1 + j]? = some t := by
      rw [List.getElem?_append, if_neg (by omega)]
      have harith : pre.length + 1 + j - pre.length = j + 1 := by omega
      rw [harith, List.getElem?_cons_succ, List.getElem?_eq_getElem hjlt, hjt]
    have hidx := h2 _ _ (by rw [← hsplit] at hget; exact hget)
    rw [hsIdx, hidx]
    omega
  rw [h5, hsplit, regsOf_append, regsOf_cons, List.reverse_append,
    List.reverse_append]
  unfold mapFind?
  rw [List.append_assoc, List.find?_append]
  have hnone : ((regsOf post).reverse).find?
      (fun e => e.1 == lowerStr s.Stage.Name) = none := by
    rw [List.find?_eq_none]
    intro x hx
    rw [List.mem_reverse] at hx
    obtain ⟨t, ht, hk, -⟩ := regsOf_mem hx
    obtain ⟨hn1, hn2⟩ := hshadow t
      (by rw [hsplit]; exact List.mem_append.mpr (Or.inr (List.mem_cons_of_mem s ht)))
      (hpost t ht)
    simp only [beq_iff_eq]
    rcases hk with hk | hk <;> rw [hk]
    · exact hn1
    · exact hn2
  rw [hnone]
  have hsr : (stageRegs s).reverse =
      [(Nat.repr s.Stage.Index, s.Stage.Index),
       (lowerStr s.Stage.Name, s.Stage.Index)] := by
    unfold stageRegs
    rw [if_neg hname]
    rfl
  rw [Option.none_or, List.find?_append, hsr]
  by_cases hnum : Nat.repr s.Stage.Index = lowerStr s.Stage.Name
  · have hb : (Nat.repr s.Stage.Index == lowerStr s.Stage.Name) = true := by
      simp [hnum]
    rw [show List.find? (fun e => e.1 == lowerStr s.Stage.Name)
        [(Nat.repr s.Stage.Index, s.Stage.Index),
         (lowerStr s.Stage.Name, s.Stage.Index)] =
        some (Nat.repr s.Stage.Index, s.Stage.Index) from by
      simp [List.find?, hb]]
    rfl
  · have hb : (Nat.repr s.Stage.Index == lowerStr s.Stage.Name) = false := by
      simp [hnum]
    rw [show List.find? (fun e => e.1 == lowerStr s.Stage.Name)
        [(Nat.repr s.Stage.Index, s.Stage.Index),
         (lowerStr s.Stage.Name, s.Stage.Index)] =
        some (lowerStr s.Stage.Name, s.Stage.Index) from by
      simp [List.find?, hb]]
    rfl

def c3winsts : List parsedInstruction :=
  [{ Line := 1, Keyword := "FROM", Args := "alpine AS build", Raw := "FROM alpine AS build" }]

/-- Witness for the amended C3: with a single aliased stage and no shadowing,
looking up the alias yields that stage's index. -/
theorem alias_lookup_last_wins_witness :
    mapFind? ((runBuilder c3winsts).toOption.getD initState).aliases
      (lowerStr ((((runBuilder c3winsts).toOption.getD initState)).rep.Stages.headD
        (freshStage 0)).Stage.Name) =
      some ((((runBuilder c3winsts).toOption.getD initState).rep.Stages.headD
        (freshStage 0)).Stage.Index) := by
  exact @alias_lookup_last_wins c3winsts ((runBuilder c3winsts).toOption.getD initState)
    (by decide) _ (by decide) (by decide) (by decide)

/-! ## C5: COPY provenance notes -/

/-- C5: the note attached to a COPY layer depends on the `--from` reference:
a table hit names the stage index and the reference, a miss warns about an
external stage/image, and no `--from` means build-context files; inside a
stage the COPY layer's extra notes are exactly `copyNotes`. -/
theorem copy_notes_cases (args : String) (aliases : List (String × Nat)) :
    (∀ idx : Nat, detectCopySourceStage args ≠ "" →
      mapFind? aliases (lowerStr (detectCopySourceStage args)) = some idx →
      copyNotes args aliases =
        ["Copies from stage " ++ Nat.repr idx ++ " (" ++ detectCopySourceStage args ++
          "). Cache depends on that stage's output instead of local files."]) ∧
    (detectCopySourceStage args ≠ "" →
      mapFind? aliases (lowerStr (detectCopySourceStage args)) = none →
      copyNotes args aliases =
        ["Copies from \"" ++ detectCopySourceStage args ++
          "\". Make sure the stage or image exists."]) ∧
    (detectCopySourceStage args = "" →
      copyNotes args aliases =
        ["Takes files from the build context, so editing those files will invalidate this layer."]) ∧
    (∀ inst : parsedInstruction, inst.Keyword = "COPY" → inst.Args = args →
      stageNotes inst aliases = copyNotes args aliases) := by
  refine ⟨?_, ?_, ?_, ?_⟩
  · intro idx hne hfind
    simp only [copyNotes]
    rw [if_neg hne, hfind]
  · intro hne hfind
    simp only [copyNotes]
    rw [if_neg hne, hfind]
  · intro hempty
    simp only [copyNotes]
    rw [if_pos hempty]
  · intro inst hk ha
    unfold stageNotes
    rw [if_pos hk, ha]

/-- Witness for C5: the three note forms at concrete COPY arguments,
including a case-insensitive alias hit. -/
theorem copy_notes_cases_witness :
    copyNotes "--from=Build /src /dst" [("build", 0)] =
      ["Copies from stage 0 (Build). Cache depends on that stage's output instead of local files."] ∧
    copyNotes "--from ghost /a /b" [("build", 0)] =
      ["Copies from \"ghost\". Make sure the stage or image exists."] ∧
    copyNotes ". /app" [("build", 0)] =
      ["Takes files from the build context, so editing those files will invalidate this layer."] := by
  refine ⟨?_, ?_, ?_⟩
  · have h := (copy_notes_cases "--from=Build /src /dst" [("build", 0)]).1 0
      (by decide) (by decide)
    exact h.trans (by decide)
  · have h := (copy_notes_cases "--from ghost /a /b" [("build", 0)]).2.1
      (by decide) (by decide)
    exact h.trans (by decide)
  · exact (copy_notes_cases ". /app" [("build", 0)]).2.2.1 (by decide)

/-! ## C6: inline-comment stripping -/

/-- Position-wise statement that every `#` in `l` is mid-token: it is neither
at position 0 (where the Boolean `prev` stands for whether the character just
before the scanned fragment is whitespace) nor preceded by whitespace. -/
def hashMidToken (prev : Bool) (l : List Char) : Prop :=
  ∀ i, i < l.length → l.getD i ' ' = '#' →
    (i = 0 → prev = false) ∧
    (0 < i → (l.getD (i - 1) ' ').isWhitespace = false)

instance instDecidableHashMidToken (prev : Bool) (l : List Char) :
    Decidable (hashMidToken prev l) := by
  unfold hashMidToken
  infer_instance

lemma hashMidToken_head {prev : Bool} {c : Char} {cs : List Char}
    (h : hashMidToken prev (c :: cs)) (hc : c = '#') : prev = false :=
  (h 0 (by simp) (by simpa using hc)).1 rfl

lemma hashMidToken_cons {prev : Bool} {c : Char} {cs : List Char}
    (h : hashMidToken prev (c :: cs)) : hashMidToken c.isWhitespace cs := by
  intro i hi hhash
  cases i with
  | zero =>
    refine ⟨fun _ => ?_, fun hlt => absurd hlt (by omega)⟩
    have := (h 1 (by simp; omega) (by simpa using hhash)).2 (by omega)
    simpa using this
  | succ j =>
    refine ⟨fun h0 => absurd h0 (by omega), fun _ => ?_⟩
    have := (h (j + 2) (by simp; omega) (by simpa using hhash)).2 (by omega)
    simpa using this

lemma inlineCutAux_none {l : List Char} :
    ∀ prev : Bool, hashMidToken prev l → inlineCutAux prev l = none := by
  induction l with
  | nil => intro prev _; rfl
  | cons c cs ih =>
    intro prev h
    have hguard : ¬(c = '#' ∧ prev = true) := by
      rintro ⟨hc, hp⟩
      rw [hashMidToken_head h hc] at hp
      cases hp
    unfold inlineCutAux
    rw [if_neg hguard, ih c.isWhitespace (hashMidToken_cons h)]
    rfl

lemma getLastD_irrel {p : List Char} (hp : p ≠ []) (a b : Char) :
    p.getLastD a = p.getLastD b := by
  rw [List.getLastD_eq_getLast?, List.getLastD_eq_getLast?]
  cases hgl : p.getLast? with
  | none =>
    exact absurd (List.getLast?_eq_none_iff.mp hgl) hp
  | some y => rfl

lemma inlineCutAux_cut : ∀ (p : List Char) (prev : Bool) (t : List Char),
    hashMidToken prev p →
    (if p.isEmpty then prev = true else (p.getLastD ' ').isWhitespace = true) →
    inlineCutAux prev (p ++ '#' :: t) = some p := by
  intro p
  induction p with
  | nil =>
    intro prev t _ hb
    simp only [List.isEmpty_nil, if_true] at hb
    show inlineCutAux prev ('#' :: t) = some []
    unfold inlineCutAux
    rw [if_pos ⟨rfl, hb⟩]
  | cons c p' ih =>
    intro prev t h hb
    have hguard : ¬(c = '#' ∧ prev = true) := by
      rintro ⟨hc, hp⟩
      rw [hashMidToken_head h hc] at hp
      cases hp
    have hb' : if p'.isEmpty then c.isWhitespace = true
        else (p'.getLastD ' ').isWhitespace = true := by
      simp only [List.isEmpty_cons] at hb
      by_cases hp' : p'.isEmpty
      · rw [if_pos hp']
        have hpnil : p' = [] := List.isEmpty_iff.mp hp'
        subst hpnil
        simpa using hb
      · rw [if_neg hp']
        have hpne : p' ≠ [] := fun hc2 => hp' (by simp [hc2])
        rw [List.getLastD_cons] at hb
        rw [getLastD_irrel hpne ' ' c]
        exact hb
    show inlineCutAux prev ((c :: p') ++ '#' :: t) = some (c :: p')
    rw [List.cons_append]
    unfold inlineCutAux
    rw [if_neg hguard, ih c.isWhitespace t (hashMidToken_cons h) hb']
    rfl

/-- C6: a `#` that starts the trimmed line or follows whitespace cuts the
line there (the kept prefix is then trimmed); a line whose hashes are all
mid-token is returned unchanged; and a line whose stripped result is empty
is skipped by the assembler step. -/
theorem inline_comment_spec :
    (∀ l : List Char, hashMidToken true l → removeInlineComment l = l) ∧
    (∀ p t : List Char, hashMidToken true p →
      (p.getLastD ' ').isWhitespace = true →
      removeInlineComment (p ++ '#' :: t) = trimChars p) ∧
    (∀ (acc : asmAcc) (n : Nat) (text : String),
      removeInlineComment (trimChars text.data) = [] →
      readStep acc n text = acc) := by
  refine ⟨?_, ?_, ?_⟩
  · intro l h
    unfold removeInlineComment
    rw [inlineCutAux_none true h]
  · intro p t h hb
    unfold removeInlineComment
    rw [inlineCutAux_cut p true t h (by
      by_cases hp : p.isEmpty
      · rw [if_pos hp]
      · rw [if_neg hp]
        exact hb)]
  · intro acc n text hstrip
    simp [readStep, hstrip]

/-- Witness for C6: a URL hash is kept, a spaced hash cuts and trims, and a
comment-only line is skipped. -/
theorem inline_comment_spec_witness :
    removeInlineComment ("RUN curl http://e#f").data = ("RUN curl http://e#f").data ∧
    removeInlineComment (("RUN echo hi ").data ++ '#' :: (" c").data) =
      trimChars ("RUN echo hi ").data ∧
    readStep { instrs := [], current := [], currentLine := 0 } 1 "# note" =
      { instrs := [], current := [], currentLine := 0 } := by
  refine ⟨?_, ?_, ?_⟩
  · exact inline_comment_spec.1 _ (by decide)
  · exact inline_comment_spec.2.1 _ _ (by decide) (by decide)
  · exact inline_comment_spec.2.2 _ _ _ (by decide)

/-! ## C7: dangling line continuation -/

/-- C7: if the assembler's accumulator is still open when input ends, line
reading fails with the unterminated-continuation error, the whole analysis
aborts with that error, and no instruction is emitted for the dangling
fragment (the error return carries no instruction list). -/
theorem dangling_continuation_fails {lines : List String}
    (h : (assembleLines lines).current ≠ []) :
    readInstructions lines = .error "unterminated line continuation at end of file" ∧
    analyzeDockerfile lines = .error "unterminated line continuation at end of file" := by
  have hr : readInstructions lines =
      .error "unterminated line continuation at end of file" := by
    unfold readInstructions
    rw [if_neg (by simp [List.isEmpty_iff, h])]
  refine ⟨hr, ?_⟩
  simp only [analyzeDockerfile, hr]

/-- Witness for C7 at the file consisting of the single line `RUN foo \`. -/
theorem dangling_continuation_fails_witness :
    readInstructions ["RUN foo \\"] =
      .error "unterminated line continuation at end of file" ∧
    analyzeDockerfile ["RUN foo \\"] =
      .error "unterminated line continuation at end of file" :=
  dangling_continuation_fails (by decide)

/-! ## C8: FROM base and alias extraction -/

lemma head_dropWhile_eq_find {α : Type} (p : α → Bool) (l : List α) :
    (l.dropWhile p).head? = l.find? (fun a => !p a) := by
  induction l with
  | nil => rfl
  | cons a t ih =>
    by_cases hp : p a
    · rw [List.dropWhile_cons, if_pos hp, List.find?_cons, ih]
      simp [hp]
    · rw [List.dropWhile_cons, if_neg hp, List.find?_cons]
      simp [hp]

lemma fieldsAux_mem_ne_nil : ∀ (l acc : List Char), ∀ t ∈ fieldsAux acc l, t ≠ "" := by
  intro l
  induction l with
  | nil =>
    intro acc t ht
    unfold fieldsAux at ht
    by_cases ha : acc.isEmpty
    · rw [if_pos ha] at ht
      simp at ht
    · rw [if_neg ha] at ht
      simp only [List.mem_singleton] at ht
      subst ht
      intro hc
      apply ha
      have hdata := congrArg String.data hc
      simp only [String.data] at hdata
      simp [List.isEmpty_iff, ← List.reverse_eq_nil_iff, hdata]
  | cons c cs ih =>
    intro acc t ht
    unfold fieldsAux at ht
    by_cases hw : c.isWhitespace
    · rw [if_pos hw] at ht
      by_cases ha : acc.isEmpty
      · rw [if_pos ha] at ht
        exact ih [] t ht
      · rw [if_neg ha] at ht
        rcases List.mem_cons.mp ht with ht | ht
        · subst ht
          intro hc
          apply ha
          have hdata := congrArg String.data hc
          simp only [String.data] at hdata
          simp [List.isEmpty_iff, ← List.reverse_eq_nil_iff, hdata]
        · exact ih [] t ht
    · rw [if_neg hw] at ht
      exact ih (c :: acc) t ht

lemma goFields_mem_ne_nil (s : String) : ∀ t ∈ goFields s, t ≠ "" :=
  fun t ht => fieldsAux_mem_ne_nil s.data [] t ht

lemma parseFrom_fst_cons {args : String} {b : String} {rest : List String}
    (hd : (goFields args).dropWhile startsWithDashDash = b :: rest) :
    (parseFrom args).1 = b := by
  simp only [parseFrom, hd]
  rcases rest with _ | ⟨a, _ | ⟨x, r⟩⟩
  · rfl
  · rfl
  · show (if eqFold a "AS" = true then (b, x) else (b, "")).1 = b
    by_cases he : eqFold a "AS"
    · rw [if_pos he]
    · rw [if_neg he]

/-- C8: the FROM base image is the first token not starting with `--`, the
alias is the token after a case-insensitive `AS` immediately following the
base, no base token exists exactly when the extracted base is empty, and a
FROM with an empty base makes the builder fail with the line-tagged
"FROM instruction missing base image" error. -/
theorem from_base_and_alias (args : String) :
    (parseFrom args).1 =
      (((goFields args).find? (fun t => !startsWithDashDash t)).getD "") ∧
    (parseFrom args).2 =
      (match (goFields args).dropWhile startsWithDashDash with
        | _ :: a :: x :: _ => if eqFold a "AS" then x else ""
        | _ => "") ∧
    (((goFields args).find? (fun t => !startsWithDashDash t) = none) ↔
      (parseFrom args).1 = "") ∧
    (∀ (st : buildState) (inst : parsedInstruction), inst.Keyword = "FROM" →
      inst.Args = args → (parseFrom args).1 = "" →
      processInst st inst = .error ("line " ++ Nat.repr inst.Line ++
        ": FROM instruction missing base image")) := by
  have hfind := head_dropWhile_eq_find startsWithDashDash (goFields args)
  refine ⟨?_, ?_, ?_, ?_⟩
  · rcases hd : (goFields args).dropWhile startsWithDashDash with _ | ⟨b, rest⟩
    · rw [hd] at hfind
      simp only [parseFrom, hd]
      rw [← hfind]
      rfl
    · rw [hd] at hfind
      rw [parseFrom_fst_cons hd, ← hfind]
      rfl
  · rcases hd : (goFields args).dropWhile startsWithDashDash with _ | ⟨b, _ | ⟨a, _ | ⟨x, r⟩⟩⟩ <;>
      simp only [parseFrom, hd]
    · show (if eqFold a "AS" = true then (b, x) else (b, "")).2 =
        (if eqFold a "AS" = true then x else "")
      by_cases he : eqFold a "AS"
      · rw [if_pos he, if_pos he]
      · rw [if_neg he, if_neg he]
  · rcases hd : (goFields args).dropWhile startsWithDashDash with _ | ⟨b, rest⟩
    · rw [hd] at hfind
      simp only [parseFrom, hd]
      rw [← hfind]
      simp
    · rw [hd] at hfind
      have hmem : b ∈ goFields args := by
        have hsub := (List.dropWhile_sublist (l := goFields args)
          (p := startsWithDashDash)).subset
        exact hsub (by rw [hd]; exact List.mem_cons_self b rest)
      have hb : b ≠ "" := goFields_mem_ne_nil args b hmem
      rw [parseFrom_fst_cons hd, ← hfind]
      constructor
      · intro hnone
        cases hnone
      · intro hone
        exact absurd hone hb
  · intro st inst hk ha hbase
    unfold processInst
    rw [if_neg (by rw [hk]; decide), if_pos hk]
    simp only [processFrom]
    rw [ha, if_pos hbase]

def c8FromInst : parsedInstruction :=
  { Line := 7, Keyword := "FROM", Args := "--platform=linux/amd64",
    Raw := "FROM --platform=linux/amd64" }

/-- Witness for C8: a FROM whose arguments are only `--` flags has no base
token and fails with the line-tagged error; a flagged FROM with base and
alias extracts both. -/
theorem from_base_and_alias_witness :
    processInst initState c8FromInst =
      .error "line 7: FROM instruction missing base image" ∧
    parseFrom "--platform=linux/amd64 ubuntu:22.04 as build" = ("ubuntu:22.04", "build") := by
  constructor
  · have h := (from_base_and_alias "--platform=linux/amd64").2.2.2 initState
      c8FromInst rfl rfl (by decide)
    exact h.trans (by decide)
  · have h1 := (from_base_and_alias "--platform=linux/amd64 ubuntu:22.04 as build").1
    have h2 := (from_base_and_alias "--platform=linux/amd64 ubuntu:22.04 as build").2.1
    have hp : parseFrom "--platform=linux/amd64 ubuntu:22.04 as build" =
        ((parseFrom "--platform=linux/amd64 ubuntu:22.04 as build").1,
         (parseFrom "--platform=linux/amd64 ubuntu:22.04 as build").2) := rfl
    rw [hp, h1, h2]
    decide

/-! ## C9: unknown keywords fall back to the generic metadata descriptor -/

/-- C9: a keyword absent from the descriptor table gets the fallback
descriptor, whose effect is metadata with the generic explanation and cache
hint, and processing such an instruction inside a stage never produces an
error. -/
theorem unknown_keyword_fallback (k : String)
    (h : instructionDescriptors k = none) :
    descriptorFor k =
      { Effect := effectMetadata
        Explanation := "Recorded as metadata. It influences how containers start but does not add filesystem content."
        CacheHint := "Cache key ties to the literal instruction, so changing text invalidates the layer." } ∧
    (∀ (st : buildState) (inst : parsedInstruction) (sIdx : Nat),
      st.stageIndex = some sIdx → inst.Keyword = k →
      ∃ st', processInst st inst = .ok st') := by
  constructor
  · unfold descriptorFor
    rw [h]
    rfl
  · intro st inst sIdx hsi hk
    by_cases hk0 : inst.Keyword = ""
    · exact ⟨st, processInst_blank hk0⟩
    · have hkF : inst.Keyword ≠ "FROM" := by
        intro hF
        have h2 := h
        rw [← hk, hF] at h2
        exact absurd h2 (by decide)
      refine ⟨processInStage st inst sIdx, ?_⟩
      unfold processInst
      rw [if_neg hk0, if_neg hkF, hsi]

/-- Witness for C9 at the unknown keyword CHECKPOINT inside stage 0. -/
theorem unknown_keyword_fallback_witness :
    descriptorFor "CHECKPOINT" =
      { Effect := effectMetadata
        Explanation := "Recorded as metadata. It influences how containers start but does not add filesystem content."
        CacheHint := "Cache key ties to the literal instruction, so changing text invalidates the layer." } ∧
    ∃ st', processInst
      { stageIndex := some 0, aliases := [("0", 0)],
        rep := { Global := [], Stages := [freshStage 0] } }
      { Line := 2, Keyword := "CHECKPOINT", Args := "x", Raw := "CHECKPOINT x" } =
      .ok st' := by
  have h := unknown_keyword_fallback "CHECKPOINT" (by decide)
  exact ⟨h.1, h.2 _ _ 0 rfl rfl⟩

end DockerLayers
